import Mathlib

/-!
Verification development for `kernel_explorer/kernels/rocm/gemm_tunable.h`.

The unit under study is a C++ header whose whole content is one forward
declaration, `void InitTunableGemm(py::module mod);`, inside
`namespace onnxruntime`.

The development has two parts.

* `GemmTunableHeader`: the header transcribed item by item (`gemm_tunable_h`),
  together with generic queries over a header's own declarations (which
  functions, types and data it declares, how a type name resolves through the
  namespace aliases in scope).  Claims about the declared interface are settled
  on this transcription.
* `onnxruntime`: the state-passing model of the declared function.  Its body is
  not part of the header, so the body is modelled from the specification and is
  marked as such.
-/

namespace GemmTunableHeader

/-- A C++ name with its qualifiers, outermost first: `py::module` is `["py", "module"]`. -/
abbrev QualName := List String

/-- The C++ types that can appear in a declaration's return or parameter position. -/
inductive CppType where
  /-- The type `void`. -/
  | void
  /-- A type referred to by a (possibly qualified) name, taken by value. -/
  | named (n : QualName)
  /-- Pointer to a type. -/
  | pointer (t : CppType)
  /-- Lvalue reference to a type. -/
  | reference (t : CppType)
  /-- A `const`-qualified type. -/
  | const (t : CppType)
  deriving DecidableEq, Repr

/-- One parameter of a function declaration: its type and its name. -/
structure Param where
  type : CppType
  name : String
  deriving DecidableEq, Repr

/-- The items a header can hold at namespace scope. -/
inductive Decl where
  /-- A `pragma` directive. -/
  | pragma (text : String)
  /-- An `include <path>` directive. -/
  | includeDirective (path : String)
  /-- A namespace alias, `namespace aliasName = target;`. -/
  | namespaceAlias (aliasName : String) (target : QualName)
  /-- A namespace block, `namespace name { body }`. -/
  | namespaceDef (name : String) (body : List Decl)
  /-- A function declaration, `ret name(params);` or `ret name(params) noexcept;`:
  `isNoexcept` tells whether the declaration carries `noexcept`. -/
  | function (ret : CppType) (name : String) (params : List Param) (isNoexcept : Bool)
  /-- A type declaration or definition (`class`, `struct`, `enum`, `using T = ...`, `typedef`). -/
  | typeDecl (name : String)
  /-- A data (variable) declaration or definition. -/
  | dataDecl (type : CppType) (name : String)
  deriving Repr

/-- The header `gemm_tunable.h`, item by item, in source order (the two licence
comment lines and blank lines dropped):

* line 4, the `pragma once` directive;
* line 6, the `include <pybind11/pybind11.h>` directive;
* line 8, `namespace py = pybind11;`
* lines 10 to 14, `namespace onnxruntime { ... }`, whose body is
* line 12, `void InitTunableGemm(py::module mod);`, which carries no `noexcept`. -/
def gemm_tunable_h : List Decl :=
  [ .pragma "once",
    .includeDirective "pybind11/pybind11.h",
    .namespaceAlias "py" ["pybind11"],
    .namespaceDef "onnxruntime"
      [ .function .void "InitTunableGemm" [⟨.named ["py", "module"], "mod"⟩] false ] ]

/-- The namespace aliases visible at a point of the header, innermost (latest) first. -/
abbrev AliasEnv := List (String × QualName)

/-- Resolve the leading qualifier of a name through the aliases in scope. -/
def resolveName (env : AliasEnv) : QualName → QualName
  | [] => []
  | q :: rest =>
    match env.lookup q with
    | some target => target ++ rest
    | none => q :: rest

/-- Resolve every type name inside a type through the aliases in scope. -/
def CppType.resolve (env : AliasEnv) : CppType → CppType
  | .void => .void
  | .named n => .named (resolveName env n)
  | .pointer t => .pointer (t.resolve env)
  | .reference t => .reference (t.resolve env)
  | .const t => .const (t.resolve env)

mutual
/-- Walk one item found in namespace `scope` with aliases `env` visible, descending into
namespace blocks, and gather what `pick` extracts from each item that is not a block. -/
def Decl.collect {α : Type} (pick : QualName → AliasEnv → Decl → List α)
    (scope : QualName) (env : AliasEnv) : Decl → List α
  | .namespaceDef n body => Decl.collectList pick (scope ++ [n]) env body
  | .pragma t => pick scope env (.pragma t)
  | .includeDirective p => pick scope env (.includeDirective p)
  | .namespaceAlias a t => pick scope env (.namespaceAlias a t)
  | .function r n ps e => pick scope env (.function r n ps e)
  | .typeDecl n => pick scope env (.typeDecl n)
  | .dataDecl t n => pick scope env (.dataDecl t n)
/-- Walk a sequence of items in source order; a namespace alias is visible to the items
after it in the same block and in the blocks nested there. -/
def Decl.collectList {α : Type} (pick : QualName → AliasEnv → Decl → List α)
    (scope : QualName) (env : AliasEnv) : List Decl → List α
  | [] => []
  | .namespaceAlias a t :: ds =>
    pick scope env (.namespaceAlias a t) ++
      Decl.collectList pick scope ((a, resolveName env t) :: env) ds
  | d :: ds => Decl.collect pick scope env d ++ Decl.collectList pick scope env ds
end

/-- A function declaration as found in a header: the namespace it sits in, its signature as
written (with whether it carries `noexcept`), and the namespace aliases visible where it is
declared. -/
structure FunctionSig where
  scope : QualName
  name : String
  ret : CppType
  params : List Param
  isNoexcept : Bool
  aliases : AliasEnv
  deriving DecidableEq, Repr

/-- The fully qualified name of a declared function. -/
def FunctionSig.qualName (f : FunctionSig) : QualName := f.scope ++ [f.name]

/-- The parameter types of a declared function as written in the header. -/
def FunctionSig.paramTypes (f : FunctionSig) : List CppType := f.params.map (fun p => p.type)

/-- The parameter types of a declared function after alias resolution. -/
def FunctionSig.resolvedParamTypes (f : FunctionSig) : List CppType :=
  f.params.map (fun p => p.type.resolve f.aliases)

/-- The functions a header declares itself (what an included file declares is not counted). -/
def declaredFunctions (header : List Decl) : List FunctionSig :=
  Decl.collectList
    (fun scope env d =>
      match d with
      | .function r n ps e => [⟨scope, n, r, ps, e, env⟩]
      | _ => [])
    [] [] header

/-- The qualified names of the types a header declares itself. -/
def declaredTypes (header : List Decl) : List QualName :=
  Decl.collectList
    (fun scope _ d =>
      match d with
      | .typeDecl n => [scope ++ [n]]
      | _ => [])
    [] [] header

/-- The qualified names of the data (variables) a header declares itself. -/
def declaredData (header : List Decl) : List QualName :=
  Decl.collectList
    (fun scope _ d =>
      match d with
      | .dataDecl _ n => [scope ++ [n]]
      | _ => [])
    [] [] header

/-- The namespace aliases a header declares itself, each with the namespace it sits in. -/
def declaredAliases (header : List Decl) : List (QualName × QualName) :=
  Decl.collectList
    (fun scope _ d =>
      match d with
      | .namespaceAlias a t => [(scope ++ [a], t)]
      | _ => [])
    [] [] header

/-- The declarations of a header under a given unqualified function name (its overload set). -/
def overloadsOf (header : List Decl) (name : String) : List FunctionSig :=
  (declaredFunctions header).filter (fun f => f.name = name)

/-- The ways a call can come back to its caller, as far as the declaration of the function
fixes them. -/
inductive Outcome where
  /-- The call returns; the caller receives a value of type `t` (no value when `t` is `void`). -/
  | returns (t : CppType)
  /-- The call is left by an exception, which the caller receives instead of a return. -/
  | throws
  deriving DecidableEq, Repr

/-- The outcomes the declaration of a function leaves open for a call: a return of the
declared return type, and exit by an exception unless the declaration carries `noexcept`
(in C++ a function declared without an exception specification is potentially throwing). -/
def FunctionSig.outcomes (f : FunctionSig) : List Outcome :=
  Outcome.returns f.ret :: (if f.isNoexcept then [] else [Outcome.throws])

/-- The declaration makes the effect of the call on its arguments the only possible result:
every outcome it leaves open is a return that hands back no value. -/
def FunctionSig.OnlyResultIsEffectOnArguments (f : FunctionSig) : Prop :=
  ∀ o ∈ f.outcomes, o = Outcome.returns CppType.void

instance (f : FunctionSig) : Decidable f.OnlyResultIsEffectOnArguments :=
  inferInstanceAs (Decidable (∀ o ∈ f.outcomes, o = Outcome.returns CppType.void))

end GemmTunableHeader

namespace onnxruntime

/-- Modelled from the spec: an object that a module can bind a name to; the spec speaks of
"named callables", other objects are kept apart from them. The type comes from pybind11 and
is not declared in the header. -/
inductive PyObject where
  /-- A callable backed by native code, identified by `id`. -/
  | callable (id : Nat)
  /-- Any other object. -/
  | value (id : Nat)
  deriving DecidableEq, Repr

/-- Modelled from the spec: the namespace of a module ("the namespace object into which
native callables are registered") as a dictionary in insertion order, names with the
objects they are bound to. -/
abbrev Bindings := List (String × PyObject)

/-- Bind `n` to `o`: an existing binding of `n` is replaced in place, a new one goes last. -/
def Bindings.set (n : String) (o : PyObject) : Bindings → Bindings
  | [] => [(n, o)]
  | (k, v) :: rest => if k = n then (n, o) :: rest else (k, v) :: Bindings.set n o rest

/-- The object bound to `n`, if any. -/
def Bindings.get (n : String) : Bindings → Option PyObject
  | [] => none
  | (k, v) :: rest => if k = n then some v else Bindings.get n rest

/-- Modelled from the spec: the module that a `py::module` handle refers to ("a mutable
handle to a module/namespace"); the type comes from pybind11 and is not declared in the
header. The handle is passed by value and shares the module, so the changes the callee
makes to the module are seen by the caller. -/
structure Module where
  attrs : Bindings
  deriving DecidableEq, Repr

/-- The names bound in a module. -/
def Module.names (m : Module) : List String := m.attrs.map (fun b => b.1)

/-- The object a module binds to a name, if any. -/
def Module.getattr (m : Module) (n : String) : Option PyObject := Bindings.get n m.attrs

/-- Modelled from the spec: add one named callable to a module. -/
def Module.addCallable (m : Module) (n : String) (id : Nat) : Module :=
  ⟨Bindings.set n (.callable id) m.attrs⟩

/-- Modelled from the spec: a module handle is valid when it refers to a well-formed
module, one whose namespace binds no name twice. -/
def Module.Valid (m : Module) : Prop := m.names.Nodup

instance (m : Module) : Decidable m.Valid :=
  inferInstanceAs (Decidable m.names.Nodup)

/-- Modelled from the spec: the body of `InitTunableGemm`, which the header only declares.
The spec's contract for it reads: "Accepts a mutable handle to a module/namespace. Has the
side effect of adding named callables to that handle. Returns nothing." The callables it
adds are the parameter `registered` (name and identity of each, in registration order),
since their "exact names [are] unknown from this fragment". Adding a callable under a name
that is already bound rebinds the name; the spec does not single out that case. The declared
`void` return is the `Unit` component; the effect on the module is the second component. -/
def InitTunableGemm (registered : List (String × Nat)) (mod : Module) : Unit × Module :=
  ((), registered.foldl (fun m r => m.addCallable r.1 r.2) mod)

end onnxruntime

namespace onnxruntime

theorem Bindings.mem_names_set (n : String) (o : PyObject) (l : Bindings) (x : String) :
    x ∈ (Bindings.set n o l).map (fun b => b.1) ↔ x = n ∨ x ∈ l.map (fun b => b.1) := by
  induction l with
  | nil => simp [Bindings.set]
  | cons b rest ih =>
    obtain ⟨k, v⟩ := b
    by_cases hk : k = n
    · subst hk
      simp [Bindings.set]
    · simp only [Bindings.set, if_neg hk, List.map_cons, List.mem_cons, ih]
      tauto

theorem Bindings.get_set_self (n : String) (o : PyObject) (l : Bindings) :
    Bindings.get n (Bindings.set n o l) = some o := by
  induction l with
  | nil => simp [Bindings.set, Bindings.get]
  | cons b rest ih =>
    obtain ⟨k, v⟩ := b
    by_cases hk : k = n
    · simp [Bindings.set, Bindings.get, hk]
    · simp [Bindings.set, Bindings.get, hk, ih]

theorem Bindings.get_set_other (n : String) (o : PyObject) (l : Bindings) (x : String)
    (hx : x ≠ n) : Bindings.get x (Bindings.set n o l) = Bindings.get x l := by
  induction l with
  | nil => simp [Bindings.set, Bindings.get, Ne.symm hx]
  | cons b rest ih =>
    obtain ⟨k, v⟩ := b
    by_cases hk : k = n
    · subst hk
      simp [Bindings.set, Bindings.get, Ne.symm hx]
    · by_cases hkx : k = x
      · subst hkx
        simp [Bindings.set, Bindings.get, hx]
      · simp [Bindings.set, Bindings.get, hk, hkx, ih]

theorem Bindings.nodup_set (n : String) (o : PyObject) (l : Bindings)
    (h : (l.map (fun b => b.1)).Nodup) : ((Bindings.set n o l).map (fun b => b.1)).Nodup := by
  induction l with
  | nil => simp [Bindings.set]
  | cons b rest ih =>
    obtain ⟨k, v⟩ := b
    simp only [List.map_cons, List.nodup_cons] at h
    by_cases hk : k = n
    · subst hk
      simpa [Bindings.set] using h
    · simp only [Bindings.set, if_neg hk, List.map_cons, List.nodup_cons]
      refine ⟨?_, ih h.2⟩
      rw [Bindings.mem_names_set]
      rintro (h1 | h1)
      · exact hk h1
      · exact h.1 h1

theorem Module.mem_names_foldl (registered : List (String × Nat)) (m : Module) (x : String) :
    x ∈ (registered.foldl (fun m r => m.addCallable r.1 r.2) m).names ↔
      x ∈ m.names ∨ x ∈ registered.map (fun r => r.1) := by
  induction registered generalizing m with
  | nil => simp
  | cons r rs ih =>
    rw [List.foldl_cons, ih]
    simp only [Module.names, Module.addCallable, Bindings.mem_names_set, List.map_cons,
      List.mem_cons]
    tauto

theorem Module.valid_foldl (registered : List (String × Nat)) (m : Module) (hm : m.Valid) :
    (registered.foldl (fun m r => m.addCallable r.1 r.2) m).Valid := by
  induction registered generalizing m with
  | nil => simpa using hm
  | cons r rs ih =>
    rw [List.foldl_cons]
    exact ih _ (Bindings.nodup_set r.1 (.callable r.2) m.attrs hm)

theorem Module.getattr_foldl_of_not_mem (registered : List (String × Nat)) (m : Module)
    (x : String) (hx : x ∉ registered.map (fun r => r.1)) :
    (registered.foldl (fun m r => m.addCallable r.1 r.2) m).getattr x = m.getattr x := by
  induction registered generalizing m with
  | nil => rfl
  | cons r rs ih =>
    simp only [List.map_cons, List.mem_cons, not_or] at hx
    rw [List.foldl_cons, ih _ hx.2]
    exact Bindings.get_set_other r.1 (.callable r.2) m.attrs x hx.1

theorem Module.getattr_foldl_of_mem (registered : List (String × Nat)) (m : Module)
    (x : String) (hx : x ∈ registered.map (fun r => r.1)) :
    ∃ c, (x, c) ∈ registered ∧
      (registered.foldl (fun m r => m.addCallable r.1 r.2) m).getattr x
        = some (.callable c) := by
  induction registered generalizing m with
  | nil => simp at hx
  | cons r rs ih =>
    by_cases hrs : x ∈ rs.map (fun r => r.1)
    · obtain ⟨c, hc, hget⟩ := ih (m.addCallable r.1 r.2) hrs
      exact ⟨c, List.mem_cons_of_mem _ hc, by rw [List.foldl_cons]; exact hget⟩
    · have hxr : x = r.1 := by
        simp only [List.map_cons, List.mem_cons] at hx
        exact hx.resolve_right hrs
      refine ⟨r.2, ?_, ?_⟩
      · subst hxr
        exact List.mem_cons_self _ _
      · rw [List.foldl_cons, Module.getattr_foldl_of_not_mem rs _ x hrs, hxr]
        exact Bindings.get_set_self r.1 (.callable r.2) m.attrs

/-- C1. For every valid module `m` and every list `registered` of tunable-GEMM callables,
the call `InitTunableGemm registered m` completes (the model is a total function and yields
its `Unit` result and a module `m2`), `m2` is again a valid module, the names bound in `m2`
are exactly the names bound in `m` plus the registered names, every registered name is bound
in `m2` to one of the callables registered under it, and every name that is not registered
is bound in `m2` as it was in `m`. -/
theorem InitTunableGemm_gains_registered_callables (registered : List (String × Nat))
    (m : Module) (hm : m.Valid) :
    ∃ m2 : Module, InitTunableGemm registered m = ((), m2) ∧ m2.Valid ∧
      (∀ x, x ∈ m2.names ↔ x ∈ m.names ∨ x ∈ registered.map (fun r => r.1)) ∧
      (∀ x, x ∈ registered.map (fun r => r.1) →
        ∃ c, (x, c) ∈ registered ∧ m2.getattr x = some (.callable c)) ∧
      (∀ x, x ∉ registered.map (fun r => r.1) → m2.getattr x = m.getattr x) :=
  ⟨_, rfl, Module.valid_foldl registered m hm, Module.mem_names_foldl registered m,
    Module.getattr_foldl_of_mem registered m, Module.getattr_foldl_of_not_mem registered m⟩

/-- Witness for C1: a valid module binding `x` and `f`, with callables registered under
`f` and `g`. -/
theorem InitTunableGemm_gains_registered_callables_witness :
    Module.Valid ⟨[("x", .value 0), ("f", .value 1)]⟩ ∧
    ∃ m2 : Module,
      InitTunableGemm [("f", 7), ("g", 8)] ⟨[("x", .value 0), ("f", .value 1)]⟩ = ((), m2) ∧
      m2.Valid ∧
      (∀ x, x ∈ m2.names ↔
        x ∈ (Module.mk [("x", .value 0), ("f", .value 1)]).names ∨
          x ∈ [("f", 7), ("g", 8)].map (fun r => r.1)) ∧
      (∀ x, x ∈ [("f", 7), ("g", 8)].map (fun r => r.1) →
        ∃ c, (x, c) ∈ [("f", 7), ("g", 8)] ∧ m2.getattr x = some (.callable c)) ∧
      (∀ x, x ∉ [("f", 7), ("g", 8)].map (fun r => r.1) →
        m2.getattr x = (Module.mk [("x", .value 0), ("f", .value 1)]).getattr x) :=
  ⟨by decide, InitTunableGemm_gains_registered_callables _ _ (by decide)⟩

end onnxruntime

namespace GemmTunableHeader

/-- C3. The only function the header `gemm_tunable.h` declares is
`onnxruntime::InitTunableGemm`; the header declares no type and no data. Its one other
declaration is the namespace alias `py` for `pybind11`. -/
theorem gemm_tunable_h_declares_only_InitTunableGemm :
    (declaredFunctions gemm_tunable_h).map FunctionSig.qualName
        = [["onnxruntime", "InitTunableGemm"]] ∧
      declaredTypes gemm_tunable_h = [] ∧
      declaredData gemm_tunable_h = [] ∧
      declaredAliases gemm_tunable_h = [(["py"], ["pybind11"])] := by
  decide

end GemmTunableHeader
